import Mathlib

/-!
Verification development for the `dev_events` repository.

Shallow embedding of the sources `src/database/event.model.ts`,
`src/lib/mongodb.ts` and the Booking model file.  JavaScript strings are
modelled as Lean `String` / `List Char`; a thrown error is modelled as
`Option` (`none` = the function throws) or an explicit result type.
Scope notes for the JavaScript runtime semantics being modelled are given
on each definition.
-/

namespace DevEvents

/-- Character set removed by JavaScript `String.prototype.trim`
(ECMAScript WhiteSpace and LineTerminator code points). -/
def isJsWhitespace (c : Char) : Bool :=
  c == ' ' || c == '\t' || c == '\n' || c == '\r' ||
  c == '\x0b' || c == '\x0c' ||
  c.toNat == 0xa0 || c.toNat == 0xfeff || c.toNat == 0x1680 ||
  (0x2000 ≤ c.toNat && c.toNat ≤ 0x200a) ||
  c.toNat == 0x2028 || c.toNat == 0x2029 || c.toNat == 0x202f ||
  c.toNat == 0x205f || c.toNat == 0x3000

/-- Model of JavaScript `String.prototype.trim`: drop whitespace from both
ends of the character list. -/
def jsTrim (l : List Char) : List Char :=
  ((l.dropWhile isJsWhitespace).reverse.dropWhile isJsWhitespace).reverse

/-- Model of JavaScript `String.prototype.toLowerCase`, restricted to the
ASCII range (non-ASCII characters are left unchanged; sufficient scope for
the claims, which concern the ASCII-alphanumeric slug alphabet). -/
def toLowerAscii (c : Char) : Char :=
  if 'A' ≤ c ∧ c ≤ 'Z' then Char.ofNat (c.toNat + 32) else c

/-- The character class `[a-z0-9]` of the slug regex in `generateSlug`
(`event.model.ts` line 35). -/
def isSlugAlnum (c : Char) : Bool :=
  ('a' ≤ c && c ≤ 'z') || ('0' ≤ c && c ≤ '9')

/-- Model of `.replace(/[^a-z0-9]+/g, "-")` from `generateSlug`
(`event.model.ts` line 35): each maximal run of non-`[a-z0-9]` characters
becomes a single hyphen.  The boolean flag records whether we are inside
such a run. -/
def replaceNonAlnumRuns : Bool → List Char → List Char
  | _, [] => []
  | inRun, c :: rest =>
    if isSlugAlnum c then c :: replaceNonAlnumRuns false rest
    else if inRun then replaceNonAlnumRuns true rest
    else '-' :: replaceNonAlnumRuns true rest

/-- Model of `.replace(/^-+|-+$/g, "")` from `generateSlug`
(`event.model.ts` line 37): remove the leading and the trailing run of
hyphens. -/
def stripEdgeHyphens (l : List Char) : List Char :=
  ((l.dropWhile (· == '-')).reverse.dropWhile (· == '-')).reverse

/-- The trailing-hyphen half of `stripEdgeHyphens`. -/
def stripTrailHyphens (l : List Char) : List Char :=
  (l.reverse.dropWhile (· == '-')).reverse

/-- Embedding of `generateSlug` (`event.model.ts` lines 30-38):
lowercase, trim, collapse non-alphanumeric runs to hyphens, strip edge
hyphens. -/
def generateSlug (title : String) : String :=
  String.mk (stripEdgeHyphens
    (replaceNonAlnumRuns false (jsTrim (title.data.map toLowerAscii))))

/-- Step function for `alnumBlocks`: prepend the alphanumeric character `c`
to the block decomposition `bs` of `rest`. -/
def consBlock (c : Char) (rest : List Char) (bs : List (List Char)) : List (List Char) :=
  match rest, bs with
  | r :: _, b :: bs' => if isSlugAlnum r then (c :: b) :: bs' else [c] :: bs
  | _, _ => [c] :: bs

/-- The maximal runs of `[a-z0-9]` characters of a string, in order.  Used
to state the specification reading of `generateSlug` independently of the
replace/strip implementation.  An alphanumeric head either extends the
first run (when the next character is also alphanumeric) or opens a new
one; `consBlock` performs that step. -/
def alnumBlocks : List Char → List (List Char)
  | [] => []
  | c :: rest =>
    if isSlugAlnum c then consBlock c rest (alnumBlocks rest)
    else alnumBlocks rest

/-- Specification reading of the slug construction (spec section 4.2):
lowercase and trim the title, then the slug is the maximal alphanumeric
runs joined by single hyphens (equivalently: every maximal non-alphanumeric
run replaced by one hyphen, edge hyphens stripped). -/
def slugSpec (title : String) : String :=
  String.mk (List.intercalate ['-'] (alnumBlocks (jsTrim (title.data.map toLowerAscii))))

/-- From `EventSchema.pre("save")` (`event.model.ts` lines 194-199): a
required string field passes validation iff it is non-empty after
trimming. -/
def requiredFieldOk (value : String) : Bool :=
  decide (0 < (jsTrim value.data).length)

/-- Absence of two consecutive hyphens in a character list. -/
def noDoubleHyphen : List Char → Bool
  | '-' :: '-' :: _ => false
  | _ :: rest => noDoubleHyphen rest
  | [] => true

/-- The character class `\d` = `[0-9]` (code points 48-57). -/
def isDigitCh (c : Char) : Bool :=
  48 ≤ c.toNat && c.toNat ≤ 57

/-- Numeric value of a digit character. -/
def digitVal (c : Char) : Nat :=
  c.toNat - 48

/-- Digit character for a value below ten. -/
def digitChar (k : Nat) : Char :=
  Char.ofNat (48 + k % 10)

/-- The alternative `([01]\d|2[0-3])` of the `normalizeTime` regex
(`event.model.ts` line 61): hour `00`-`23`, two digits. -/
def hourClassOk (h1 h2 : Char) : Bool :=
  ((h1.toNat == 48 || h1.toNat == 49) && isDigitCh h2) ||
    (h1.toNat == 50 && (48 ≤ h2.toNat && h2.toNat ≤ 51))

/-- The group `[0-5]\d` of the `normalizeTime` regex: minutes or seconds
`00`-`59`. -/
def sexaClassOk (m1 m2 : Char) : Bool :=
  (48 ≤ m1.toNat && m1.toNat ≤ 53) && isDigitCh m2

/-- Embedding of `trimmed.match(/^([01]\d|2[0-3]):([0-5]\d)(?::[0-5]\d)?$/)`
from `normalizeTime` (`event.model.ts` line 61), returning the two captured
groups on success. -/
def timeRegexMatch : List Char → Option (List Char × List Char)
  | [h1, h2, c, m1, m2] =>
    if c = ':' ∧ hourClassOk h1 h2 ∧ sexaClassOk m1 m2 then
      some ([h1, h2], [m1, m2])
    else none
  | [h1, h2, c, m1, m2, c', s1, s2] =>
    if c = ':' ∧ c' = ':' ∧ hourClassOk h1 h2 ∧ sexaClassOk m1 m2 ∧ sexaClassOk s1 s2 then
      some ([h1, h2], [m1, m2])
    else none
  | _ => none

/-- Embedding of `normalizeTime` (`event.model.ts` lines 57-70): trim, match
the 24h regex, throw (`none`) on failure, otherwise rebuild `HH:MM` from the
two captured groups. -/
def normalizeTime (time : String) : Option String :=
  (timeRegexMatch (jsTrim time.data)).map
    (fun p => String.mk (p.1 ++ ':' :: p.2))

/-- Specification reading of the accepted time grammar, stated numerically
(spec section 4.2): the string is `HH:MM` or `HH:MM:SS` made of digits with
the hour value at most 23 and minute/second values at most 59. -/
def claimTimeForm : List Char → Bool
  | [h1, h2, c, m1, m2] =>
    c == ':' && isDigitCh h1 && isDigitCh h2 && isDigitCh m1 && isDigitCh m2 &&
      decide (10 * digitVal h1 + digitVal h2 ≤ 23) &&
      decide (10 * digitVal m1 + digitVal m2 ≤ 59)
  | [h1, h2, c, m1, m2, c', s1, s2] =>
    c == ':' && c' == ':' &&
      isDigitCh h1 && isDigitCh h2 && isDigitCh m1 && isDigitCh m2 &&
      isDigitCh s1 && isDigitCh s2 &&
      decide (10 * digitVal h1 + digitVal h2 ≤ 23) &&
      decide (10 * digitVal m1 + digitVal m2 ≤ 59) &&
      decide (10 * digitVal s1 + digitVal s2 ≤ 59)
  | _ => false

/-- Item of a small regex: a literal character or a `+`-repeated character
class. -/
inductive RegexItem : Type
  | lit (c : Char)
  | plus (p : Char → Bool)

/-- Anchored matcher for a sequence of regex items against a whole string,
with backtracking: a `plus` item consumes one class character and then
either closes the group or keeps it open. -/
def matchItems : List RegexItem → List Char → Bool
  | [], [] => true
  | [], _ :: _ => false
  | .lit _ :: _, [] => false
  | .lit c :: ps, x :: xs => x == c && matchItems ps xs
  | .plus _ :: _, [] => false
  | .plus p :: ps, x :: xs => p x && (matchItems ps xs || matchItems (.plus p :: ps) xs)

/-- The character class `[^\s@]` of `EMAIL_REGEX`. -/
def emailSegChar (c : Char) : Bool :=
  !isJsWhitespace c && !(c == '@')

/-- Embedding of `EMAIL_REGEX = /^[^\s@]+@[^\s@]+\.[^\s@]+$/` from the
Booking model (line 19). -/
def EMAIL_REGEX_items : List RegexItem :=
  [.plus emailSegChar, .lit '@', .plus emailSegChar, .lit '.', .plus emailSegChar]

/-- Embedding of `EMAIL_REGEX.test(value)` as used by the Booking email
validator and the Booking pre-save hook (no normalization is applied to the
value before the test). -/
def emailRegexTest (s : String) : Bool :=
  matchItems EMAIL_REGEX_items s.data

/-- Claim reading of the email pattern (spec section 4.3): the last segment
is only required to be non-space, with no exclusion of a second `@`. -/
def claimEmailItems : List RegexItem :=
  [.plus emailSegChar, .lit '@', .plus emailSegChar, .lit '.',
    .plus (fun c => !isJsWhitespace c)]

/-- Matching the claim reading of the email pattern against a string. -/
def claimEmailTest (s : String) : Bool :=
  matchItems claimEmailItems s.data

/-! Model of `src/lib/mongodb.ts`.

The module-level cache `{ conn, promise }` is mutable shared state; database
handles and pending-promise identities are modelled as natural numbers.
`connectToDatabase` is an `async` function whose only suspension point is
`await cached.promise`, so under the JavaScript event loop each call runs
atomically from entry up to that `await` (phase A below) and atomically from
the resumption of the `await` to the return (phase B below).  Concurrency is
modelled by sequencing these atomic phases in any order. -/

/-- The cached connection object of `mongodb.ts` (lines 8-11): an optional
established handle and an optional in-flight connection promise. -/
structure CacheState : Type where
  conn : Option Nat
  promise : Option Nat
  deriving DecidableEq

/-- Outcome of the synchronous prefix of `connectToDatabase`: a thrown
configuration error, an immediate return of the cached handle, or a
suspension awaiting the promise `pid` (with `issued = true` iff this call
itself created the promise by calling `mongoose.connect`). -/
inductive PhaseAOut : Type
  | configError
  | done (h : Nat)
  | awaiting (pid : Nat) (issued : Bool)
  deriving DecidableEq

/-- Embedding of `connectToDatabase` (`mongodb.ts` lines 35-56) from entry to
the `await`: check `process.env.MONGODB_URI` (throw if absent), return the
cached connection if present, otherwise reuse or create the in-flight
promise. `fresh` is the identity the new promise gets if one is created. -/
def connectPhaseA (uri : Option String) (fresh : Nat) (s : CacheState) :
    CacheState × PhaseAOut :=
  match uri with
  | none => (s, .configError)
  | some _ =>
    match s.conn with
    | some h => (s, .done h)
    | none =>
      match s.promise with
      | some p => (s, .awaiting p false)
      | none => ({ s with promise := some fresh }, .awaiting fresh true)

/-- Result delivered to a caller of `connectToDatabase`. -/
inductive AcquireResult : Type
  | ok (h : Nat)
  | configError
  | connError (e : Nat)
  deriving DecidableEq

/-- Embedding of `connectToDatabase` (`mongodb.ts` lines 58-66) from the
resumption of `await cached.promise`: on fulfilment store the handle in
`cached.conn` and return it; on rejection reset `cached.promise` to `null`
and rethrow the connection error. -/
def connectPhaseB (outcome : Except Nat Nat) (s : CacheState) :
    CacheState × AcquireResult :=
  match outcome with
  | .ok h => ({ s with conn := some h }, .ok h)
  | .error e => ({ s with promise := none }, .connError e)

/-- The cache state at module load (`mongodb.ts` lines 20-23): no connection,
no in-flight promise. -/
def initialCache : CacheState :=
  { conn := none, promise := none }

/-- Run the synchronous prefixes of `n` concurrent callers back to back
(the event-loop serialization of `n` simultaneous first calls), threading
the cache state; `ctr` supplies fresh promise identities.  Returns the final
state and each caller's phase-A outcome in order. -/
def runPhaseAs (uri : Option String) : Nat → Nat → CacheState →
    CacheState × List PhaseAOut
  | 0, _, s => (s, [])
  | n + 1, ctr, s =>
    let r := connectPhaseA uri ctr s
    let rest := runPhaseAs uri n (ctr + 1) r.1
    (rest.1, r.2 :: rest.2)

/-- Run the resumptions of `k` awaiting callers back to back, all observing
the same settled outcome of the shared promise. -/
def runPhaseBs (outcome : Except Nat Nat) : Nat → CacheState →
    CacheState × List AcquireResult
  | 0, s => (s, [])
  | k + 1, s =>
    let r := connectPhaseB outcome s
    let rest := runPhaseBs outcome k r.1
    (rest.1, r.2 :: rest.2)

/-- Number of callers whose phase A issued an underlying connection attempt
(i.e. called `mongoose.connect`). -/
def countIssued (outs : List PhaseAOut) : Nat :=
  outs.countP (fun o => match o with | .awaiting _ true => true | _ => false)

/-! Model of `normalizeDate` (`event.model.ts` lines 43-52).

The JavaScript pipeline is `new Date(input)` followed by
`toISOString().split("T")[0]`.  We model the proleptic Gregorian calendar
arithmetic of the ECMAScript specification; instants are milliseconds
counted from 0000-01-01T00:00:00Z. -/

/-- Proleptic Gregorian leap-year predicate. -/
def isLeapYear (y : Nat) : Bool :=
  (y % 4 == 0 && y % 100 != 0) || y % 400 == 0

/-- Number of leap years strictly before year `y` (year 0 is leap). -/
def leapsBefore (y : Nat) : Nat :=
  (y + 3) / 4 - (y + 99) / 100 + (y + 399) / 400

/-- Day index of 1 January of year `y`, counted from 0000-01-01. -/
def yearStartDay (y : Nat) : Nat :=
  365 * y + leapsBefore y

/-- Days before the first of month `m` (1-12) within a year. -/
def monthStartDoy (leap : Bool) (m : Nat) : Nat :=
  let l : Nat := if leap then 1 else 0
  match m with
  | 1 => 0
  | 2 => 31
  | 3 => 59 + l
  | 4 => 90 + l
  | 5 => 120 + l
  | 6 => 151 + l
  | 7 => 181 + l
  | 8 => 212 + l
  | 9 => 243 + l
  | 10 => 273 + l
  | 11 => 304 + l
  | 12 => 334 + l
  | _ => 400

/-- Length in days of month `m` (1-12). -/
def monthLen (leap : Bool) (m : Nat) : Nat :=
  match m with
  | 1 => 31
  | 2 => if leap then 29 else 28
  | 3 => 31
  | 4 => 30
  | 5 => 31
  | 6 => 30
  | 7 => 31
  | 8 => 31
  | 9 => 30
  | 10 => 31
  | 11 => 30
  | 12 => 31
  | _ => 0

/-- Day index (from 0000-01-01) of the calendar date `y-m-d`. -/
def dateToDayIdx (y m d : Nat) : Nat :=
  yearStartDay y + monthStartDoy (isLeapYear y) m + (d - 1)

/-- Fuelled upward search for the greatest year whose first day is at most
`n`, starting from a candidate `c` with `yearStartDay c ≤ n`. -/
def findYear (n : Nat) : Nat → Nat → Nat
  | 0, c => c
  | fuel + 1, c => if yearStartDay (c + 1) ≤ n then findYear n fuel (c + 1) else c

/-- The year containing day index `n` (ECMAScript `YearFromTime`: the
greatest year `y` with `yearStartDay y ≤ n`; valid for `n` below roughly
3.8 million, i.e. years below 10400). -/
def yearOfDay (n : Nat) : Nat :=
  findYear n 100 (n / 366)

/-- The month (1-12) containing day-of-year `doy`. -/
def monthFromDoy (leap : Bool) (doy : Nat) : Nat :=
  if doy < monthStartDoy leap 2 then 1
  else if doy < monthStartDoy leap 3 then 2
  else if doy < monthStartDoy leap 4 then 3
  else if doy < monthStartDoy leap 5 then 4
  else if doy < monthStartDoy leap 6 then 5
  else if doy < monthStartDoy leap 7 then 6
  else if doy < monthStartDoy leap 8 then 7
  else if doy < monthStartDoy leap 9 then 8
  else if doy < monthStartDoy leap 10 then 9
  else if doy < monthStartDoy leap 11 then 10
  else if doy < monthStartDoy leap 12 then 11
  else 12

/-- Calendar date `(y, m, d)` of day index `n` (from 0000-01-01): the year
containing `n`, the month containing the day-of-year, and the day within
that month. -/
def civilFromDayIdx (n : Nat) : Nat × Nat × Nat :=
  (yearOfDay n,
    monthFromDoy (isLeapYear (yearOfDay n)) (n - yearStartDay (yearOfDay n)),
    n - yearStartDay (yearOfDay n) -
      monthStartDoy (isLeapYear (yearOfDay n))
        (monthFromDoy (isLeapYear (yearOfDay n)) (n - yearStartDay (yearOfDay n))) + 1)

/-- Two-digit zero-padded decimal print. -/
def pad2 (n : Nat) : List Char :=
  [digitChar (n / 10), digitChar n]

/-- Three-digit zero-padded decimal print. -/
def pad3 (n : Nat) : List Char :=
  [digitChar (n / 100), digitChar (n / 10), digitChar n]

/-- Four-digit zero-padded decimal print. -/
def pad4 (n : Nat) : List Char :=
  [digitChar (n / 1000), digitChar (n / 100), digitChar (n / 10), digitChar n]

/-- Six-digit zero-padded decimal print. -/
def pad6 (n : Nat) : List Char :=
  [digitChar (n / 100000), digitChar (n / 10000), digitChar (n / 1000),
    digitChar (n / 100), digitChar (n / 10), digitChar n]

/-- Print a calendar date in the ISO form used by `toISOString`: years 0-9999
as four digits, other years in the expanded `±YYYYYY` form. -/
def isoDateOf (y : Int) (mo dy : Nat) : List Char :=
  if 0 ≤ y ∧ y ≤ 9999 then pad4 y.toNat ++ '-' :: pad2 mo ++ '-' :: pad2 dy
  else if 9999 < y then '+' :: (pad6 y.toNat ++ '-' :: pad2 mo ++ '-' :: pad2 dy)
  else '-' :: (pad6 (-y).toNat ++ '-' :: pad2 mo ++ '-' :: pad2 dy)

/-- Date portion of `Date.prototype.toISOString` for the UTC day index `z`
counted from 0000-01-01 (possibly negative).  Defined by shifting `z` by one
full 400-year cycle (146097 days), which is valid for `z ≥ -146097`. -/
def isoDateChars (z : Int) : List Char :=
  isoDateOf (((civilFromDayIdx (z + 146097).toNat).1 : Int) - 400)
    (civilFromDayIdx (z + 146097).toNat).2.1
    (civilFromDayIdx (z + 146097).toNat).2.2

/-- Time-of-day portion of `Date.prototype.toISOString` for `r` milliseconds
into the UTC day. -/
def isoTimeChars (r : Nat) : List Char :=
  pad2 (r / 3600000) ++ ':' :: pad2 (r / 60000 % 60) ++ ':' ::
    pad2 (r / 1000 % 60) ++ '.' :: (pad3 (r % 1000) ++ ['Z'])

/-- Model of `Date.prototype.toISOString` on the instant `inst` in
milliseconds counted from 0000-01-01T00:00:00Z. -/
def jsToISOStringChars (inst : Int) : List Char :=
  isoDateChars (inst / 86400000) ++ 'T' :: isoTimeChars (inst % 86400000).toNat

/-- Zone suffix of the ECMAScript date-time format: empty (local time),
`Z`, or `±HH:MM`.  Returns the offset in minutes east of UTC, `none`
meaning local time. -/
def parseZonePart : List Char → Option (Option Int)
  | [] => some none
  | ['Z'] => some (some 0)
  | [sg, o1, o2, c, p1, p2] =>
    if (sg = '+' ∨ sg = '-') ∧ c = ':' ∧
        isDigitCh o1 ∧ isDigitCh o2 ∧ isDigitCh p1 ∧ isDigitCh p2 then
      let oh := 10 * digitVal o1 + digitVal o2
      let om := 10 * digitVal p1 + digitVal p2
      if oh ≤ 23 ∧ om ≤ 59 then
        some (some (if sg = '+' then ((oh * 60 + om : Nat) : Int)
          else -((oh * 60 + om : Nat) : Int)))
      else none
    else none
  | _ => none

/-- Time part after the `T`: `HH:MM[:SS[.sss]]` followed by the zone
suffix.  Returns the milliseconds into the day and the parsed zone. -/
def parseTimePart : List Char → Option (Nat × Option Int)
  | h1 :: h2 :: c :: m1 :: m2 :: rest =>
    if c = ':' ∧ isDigitCh h1 ∧ isDigitCh h2 ∧ isDigitCh m1 ∧ isDigitCh m2 then
      let hh := 10 * digitVal h1 + digitVal h2
      let mm := 10 * digitVal m1 + digitVal m2
      if hh ≤ 23 ∧ mm ≤ 59 then
        match rest with
        | ':' :: s1 :: s2 :: rest2 =>
          if isDigitCh s1 ∧ isDigitCh s2 ∧ 10 * digitVal s1 + digitVal s2 ≤ 59 then
            let ss := 10 * digitVal s1 + digitVal s2
            match rest2 with
            | '.' :: a :: b :: e :: rest3 =>
              if isDigitCh a ∧ isDigitCh b ∧ isDigitCh e then
                (parseZonePart rest3).map (fun z =>
                  (((hh * 60 + mm) * 60 + ss) * 1000 +
                    (100 * digitVal a + 10 * digitVal b + digitVal e), z))
              else none
            | _ => (parseZonePart rest2).map (fun z => (((hh * 60 + mm) * 60 + ss) * 1000, z))
          else none
        | _ => (parseZonePart rest).map (fun z => ((hh * 60 + mm) * 60000, z))
      else none
    else none
  | _ => none

/-- Combine parsed date fields with the remainder of the string: an empty
remainder means UTC midnight, a `T`-led remainder is a time part (local
wall-clock time when it carries no zone suffix). -/
def finishDate (tz : Int) (y m d : Nat) (rest : List Char) : Option Int :=
  match rest with
  | [] => some ((dateToDayIdx y m d : Int) * 86400000)
  | c :: tr =>
    if c = 'T' then
      (parseTimePart tr).map (fun p =>
        (dateToDayIdx y m d : Int) * 86400000 + (p.1 : Int) -
          (match p.2 with | some off => off | none => tz) * 60000)
    else none

/-- Day field and remainder after `YYYY-MM`: either `-DD` followed by the
optional time part, or directly the optional time part (day defaulting
to 1). -/
def monthTail (tz : Int) (y m : Nat) : List Char → Option Int
  | c :: d1 :: d2 :: rest3 =>
    if c = '-' then
      if isDigitCh d1 ∧ isDigitCh d2 then
        if 1 ≤ 10 * digitVal d1 + digitVal d2 ∧
            10 * digitVal d1 + digitVal d2 ≤ monthLen (isLeapYear y) m then
          finishDate tz y m (10 * digitVal d1 + digitVal d2) rest3
        else none
      else none
    else finishDate tz y m 1 (c :: d1 :: d2 :: rest3)
  | rest2 => finishDate tz y m 1 rest2

/-- Month field and remainder after `YYYY`: either `-MM` followed by the
day field, or directly the optional time part (month and day defaulting
to 1). -/
def dateTail (tz : Int) (y : Nat) : List Char → Option Int
  | c :: m1 :: m2 :: rest2 =>
    if c = '-' then
      if isDigitCh m1 ∧ isDigitCh m2 then
        if 1 ≤ 10 * digitVal m1 + digitVal m2 ∧ 10 * digitVal m1 + digitVal m2 ≤ 12 then
          monthTail tz y (10 * digitVal m1 + digitVal m2) rest2
        else none
      else none
    else finishDate tz y 1 1 (c :: m1 :: m2 :: rest2)
  | rest => finishDate tz y 1 1 rest

/-- Parse of the ECMAScript Date Time String Format required for
`new Date(string)`: `YYYY[-MM[-DD]]`, optionally followed by
`THH:MM[:SS[.sss]][Z|±HH:MM]`.  A date-only string denotes UTC midnight; a
date-time without zone suffix denotes wall-clock time in the host zone
`tzOffsetMinutes` east of UTC (DST ignored).  Out-of-range fields (month
outside 1-12, day beyond the month length, hour above 23, ...) make the
string unparseable, as in V8.  Engine-specific fallback formats outside
this grammar (e.g. `November 16, 2025`), expanded `±YYYYYY` years,
lowercase `t`/`z` and surrounding whitespace are outside the modelled
scope.  Returns the denoted instant in milliseconds from
0000-01-01T00:00:00Z. -/
def jsDateParse (tzOffsetMinutes : Int) : List Char → Option Int
  | y1 :: y2 :: y3 :: y4 :: rest =>
    if isDigitCh y1 ∧ isDigitCh y2 ∧ isDigitCh y3 ∧ isDigitCh y4 then
      dateTail tzOffsetMinutes
        (1000 * digitVal y1 + 100 * digitVal y2 + 10 * digitVal y3 + digitVal y4) rest
    else none
  | _ => none

/-- Embedding of `normalizeDate` (`event.model.ts` lines 43-52):
`new Date(date)`; throw (`none`) if the result is an invalid date;
otherwise `toISOString().split("T")[0]`, i.e. the prefix of the ISO string
before its first `T`. -/
def normalizeDate (tzOffsetMinutes : Int) (date : String) : Option String :=
  (jsDateParse tzOffsetMinutes date.data).map
    (fun inst => String.mk ((jsToISOStringChars inst).takeWhile (fun c => !(c == 'T'))))

/-- A string in canonical `YYYY-MM-DD` shape: four digits, a hyphen, two
digits, a hyphen, two digits. -/
def isYMDShape (s : String) : Bool :=
  match s.data with
  | [y1, y2, y3, y4, c, m1, m2, c', d1, d2] =>
    c == '-' && c' == '-' && isDigitCh y1 && isDigitCh y2 && isDigitCh y3 &&
      isDigitCh y4 && isDigitCh m1 && isDigitCh m2 && isDigitCh d1 && isDigitCh d2
  | _ => false

/-- The calendar day literally written in a date string: its prefix before
the first `T` (for a `YYYY-MM-DD...` string, the `YYYY-MM-DD` part). -/
def writtenDatePart (s : String) : String :=
  String.mk (s.data.takeWhile (fun c => !(c == 'T')))

/-! Theorems. -/

/-- Claim C10: a title made of punctuation only, such as `"!"`, is non-empty
after trimming (so it passes the required-field validation of the pre-save
hook) yet `generateSlug` maps it to the empty string, so the generated slug
is not guaranteed to be a non-empty identifier. -/
theorem slug_empty_for_nonempty_title :
    ∃ t : String, requiredFieldOk t = true ∧ generateSlug t = "" :=
  ⟨"!", by decide, by decide⟩

/-- Claim C2 counterexample: with a handle already cached but the connection
URI configuration absent, `connectToDatabase` does not return the cached
handle — it throws the configuration error (the URI check precedes the
cache check, `mongodb.ts` lines 37-48). -/
theorem connect_configError_despite_cached :
    connectPhaseA none 0 { conn := some 7, promise := none } =
      ({ conn := some 7, promise := none }, .configError) ∧
    PhaseAOut.configError ≠ PhaseAOut.done 7 := by
  exact ⟨rfl, by decide⟩

/-- Claim C2 (amended): provided the connection URI configuration is
present, a call that finds a cached handle returns it unchanged without
failing; and whenever the URI configuration is absent, the call fails with
the configuration error regardless of the cache state. -/
theorem connect_cached_and_config :
    (∀ (u : String) (fresh : Nat) (s : CacheState) (h : Nat),
      s.conn = some h → connectPhaseA (some u) fresh s = (s, .done h)) ∧
    (∀ (fresh : Nat) (s : CacheState),
      connectPhaseA none fresh s = (s, .configError)) := by
  constructor
  · intro u fresh s h hc
    simp [connectPhaseA, hc]
  · intro fresh s
    rfl

/-- Witness for claim C2's amended theorem at a concrete cached state. -/
theorem connect_cached_and_config_witness :
    connectPhaseA (some "mongodb:") 0 { conn := some 5, promise := none } =
      ({ conn := some 5, promise := none }, .done 5) :=
  connect_cached_and_config.1 "mongodb:" 0 { conn := some 5, promise := none } 5 rfl

/-- Claim C8: when the shared connection attempt fails, the resumption of
`connectToDatabase` clears the in-flight promise (back to the initial cache
state, so a later call starts a fresh attempt — its phase A issues a new
connect) and rethrows the connection error; no handle is cached. -/
theorem connect_failure_resets :
    ∀ (s : CacheState) (e : Nat) (u : String) (fresh : Nat),
      s.conn = none →
      connectPhaseB (.error e) s = (initialCache, .connError e) ∧
      connectPhaseA (some u) fresh initialCache =
        ({ conn := none, promise := some fresh }, .awaiting fresh true) := by
  intro s e u fresh hc
  constructor
  · cases s
    simp only [CacheState.mk.injEq] at hc ⊢
    simp [connectPhaseB, initialCache, hc]
  · rfl

/-- Witness for claim C8's theorem at a concrete failing state. -/
theorem connect_failure_resets_witness :
    connectPhaseB (.error 3) { conn := none, promise := some 0 } =
      (initialCache, .connError 3) ∧
    connectPhaseA (some "mongodb:") 1 initialCache =
      ({ conn := none, promise := some 1 }, .awaiting 1 true) :=
  connect_failure_resets { conn := none, promise := some 0 } 3 "mongodb:" 1 rfl

/-- Once the cache holds an in-flight promise and no connection, further
synchronous prefixes of concurrent callers leave the state unchanged and
all await that same promise without issuing a new attempt. -/
theorem runPhaseAs_pending (u : String) :
    ∀ (n ctr p : Nat),
      runPhaseAs (some u) n ctr { conn := none, promise := some p } =
        ({ conn := none, promise := some p }, List.replicate n (.awaiting p false)) := by
  intro n
  induction n with
  | zero => intro ctr p; rfl
  | succ k ih =>
    intro ctr p
    simp only [runPhaseAs, connectPhaseA, ih, List.replicate]

/-- Resumptions against a fulfilled promise all return its handle. -/
theorem runPhaseBs_ok (h : Nat) :
    ∀ (k : Nat) (s : CacheState),
      (runPhaseBs (.ok h) k s).2 = List.replicate k (.ok h) := by
  intro k
  induction k with
  | zero => intro s; rfl
  | succ j ih =>
    intro s
    simp only [runPhaseBs, connectPhaseB, ih, List.replicate]

/-- Claim C9: when `n ≥ 1` callers run their synchronous prefixes before any
of them resumes (the event-loop serialization of `n` concurrent first-time
calls on the empty cache), exactly one underlying `mongoose.connect` is
issued, every caller awaits that same single promise, and once it fulfils
with handle `h` every caller receives `h`. -/
theorem connect_single_flight :
    ∀ (n : Nat) (u : String) (h : Nat), 1 ≤ n →
      countIssued (runPhaseAs (some u) n 0 initialCache).2 = 1 ∧
      (∀ o ∈ (runPhaseAs (some u) n 0 initialCache).2, ∃ b, o = .awaiting 0 b) ∧
      (runPhaseBs (.ok h) n (runPhaseAs (some u) n 0 initialCache).1).2 =
        List.replicate n (.ok h) := by
  intro n u h hn
  obtain ⟨k, rfl⟩ : ∃ k, n = k + 1 := ⟨n - 1, by omega⟩
  have hfirst : runPhaseAs (some u) (k + 1) 0 initialCache =
      ({ conn := none, promise := some 0 },
        .awaiting 0 true :: List.replicate k (.awaiting 0 false)) := by
    simp only [runPhaseAs, connectPhaseA, initialCache, runPhaseAs_pending]
  refine ⟨?_, ?_, ?_⟩
  · rw [hfirst]
    have hz : List.countP
        (fun o => match o with | PhaseAOut.awaiting _ true => true | _ => false)
        (List.replicate k (PhaseAOut.awaiting 0 false)) = 0 := by
      apply List.countP_eq_zero.mpr
      intro o ho
      rw [List.eq_of_mem_replicate ho]
      decide
    simp [countIssued, List.countP_cons, hz]
  · rw [hfirst]
    intro o ho
    rcases List.mem_cons.mp ho with rfl | ho
    · exact ⟨true, rfl⟩
    · exact ⟨false, by rw [List.eq_of_mem_replicate ho]⟩
  · rw [hfirst, runPhaseBs_ok]

/-- Witness for claim C9's theorem: two concurrent first-time callers. -/
theorem connect_single_flight_witness :
    countIssued (runPhaseAs (some "mongodb:") 2 0 initialCache).2 = 1 ∧
    (∀ o ∈ (runPhaseAs (some "mongodb:") 2 0 initialCache).2, ∃ b, o = .awaiting 0 b) ∧
    (runPhaseBs (.ok 9) 2 (runPhaseAs (some "mongodb:") 2 0 initialCache).1).2 =
      List.replicate 2 (.ok 9) :=
  connect_single_flight 2 "mongodb:" 9 (by decide)

/-- Claim C1 counterexample: on `"2025-11-16T01:00:00+05:00"` the calendar
day written in the input is `2025-11-16`, but `normalizeDate` returns
`2025-11-15`: `toISOString` converts to UTC, so the zone offset shifts the
returned day. -/
theorem normalizeDate_shifts_written_day :
    writtenDatePart "2025-11-16T01:00:00+05:00" = "2025-11-16" ∧
    normalizeDate 0 "2025-11-16T01:00:00+05:00" = some "2025-11-15" ∧
    ("2025-11-15" : String) ≠ "2025-11-16" := by
  exact ⟨by decide, by decide, by decide⟩

/-- Claim C4 counterexample: `normalizeTime` trims its input first, so
`" 09:05"` succeeds although it is not literally of the form `HH:MM` or
`HH:MM:SS`. -/
theorem normalizeTime_accepts_untrimmed :
    claimTimeForm (String.data " 09:05") = false ∧
    normalizeTime " 09:05" = some "09:05" := by
  exact ⟨by decide, by decide⟩

/-- Claim C3 counterexample: the string `"a@b.c@d"` matches the claim's
pattern (whose final segment only excludes whitespace) but is rejected by
`EMAIL_REGEX`, whose final segment `[^\s@]+` also excludes `@`. -/
theorem email_regex_last_segment_at :
    claimEmailTest "a@b.c@d" = true ∧ emailRegexTest "a@b.c@d" = false := by
  exact ⟨by decide, by decide⟩

/-- The hour alternative of the time regex holds exactly of two digits whose
value is at most 23. -/
theorem hourClassOk_iff (h1 h2 : Char) :
    hourClassOk h1 h2 = true ↔
      isDigitCh h1 = true ∧ isDigitCh h2 = true ∧
        10 * digitVal h1 + digitVal h2 ≤ 23 := by
  simp only [hourClassOk, isDigitCh, digitVal, Bool.or_eq_true, Bool.and_eq_true,
    beq_iff_eq, decide_eq_true_eq]
  omega

/-- The minute/second group of the time regex holds exactly of two digits
whose value is at most 59. -/
theorem sexaClassOk_iff (m1 m2 : Char) :
    sexaClassOk m1 m2 = true ↔
      isDigitCh m1 = true ∧ isDigitCh m2 = true ∧
        10 * digitVal m1 + digitVal m2 ≤ 59 := by
  simp only [sexaClassOk, isDigitCh, digitVal, Bool.or_eq_true, Bool.and_eq_true,
    beq_iff_eq, decide_eq_true_eq]
  omega

/-- The time regex accepts exactly the strings of the numeric time grammar,
and then produces the first five characters (`HH:MM`). -/
theorem timeRegexMatch_eq_claim (l : List Char) :
    (timeRegexMatch l).map (fun p => String.mk (p.1 ++ ':' :: p.2)) =
      if claimTimeForm l = true then some (String.mk (l.take 5)) else none := by
  obtain _ | ⟨a, _ | ⟨b, _ | ⟨c, _ | ⟨d, _ | ⟨e, _ | ⟨f, _ | ⟨g, _ | ⟨h2, _ | ⟨i, rest⟩⟩⟩⟩⟩⟩⟩⟩⟩ := l
  · rfl
  · rfl
  · rfl
  · rfl
  · rfl
  · simp only [timeRegexMatch, claimTimeForm]
    by_cases hc : c = ':' ∧ hourClassOk a b = true ∧ sexaClassOk d e = true
    · obtain ⟨rfl, hh, hm⟩ := hc
      have hh' := (hourClassOk_iff a b).mp hh
      have hm' := (sexaClassOk_iff d e).mp hm
      simp [hh, hm, hh'.1, hh'.2.1, hm'.1, hm'.2.1, hh'.2.2, hm'.2.2, List.take]
    · rw [if_neg hc, if_neg]
      · rfl
      · intro hcl
        apply hc
        simp only [Bool.and_eq_true, beq_iff_eq, decide_eq_true_eq] at hcl
        refine ⟨hcl.1.1.1.1.1.1, ?_, ?_⟩
        · rw [hourClassOk_iff]
          exact ⟨hcl.1.1.1.1.1.2, hcl.1.1.1.1.2, hcl.1.2⟩
        · rw [sexaClassOk_iff]
          exact ⟨hcl.1.1.1.2, hcl.1.1.2, hcl.2⟩
  · rfl
  · rfl
  · simp only [timeRegexMatch, claimTimeForm]
    by_cases hc : c = ':' ∧ f = ':' ∧ hourClassOk a b = true ∧ sexaClassOk d e = true ∧
      sexaClassOk g h2 = true
    · obtain ⟨rfl, rfl, hh, hm, hs⟩ := hc
      have hh' := (hourClassOk_iff a b).mp hh
      have hm' := (sexaClassOk_iff d e).mp hm
      have hs' := (sexaClassOk_iff g h2).mp hs
      simp [hh, hm, hs, hh'.1, hh'.2.1, hm'.1, hm'.2.1, hs'.1, hs'.2.1,
        hh'.2.2, hm'.2.2, hs'.2.2, List.take]
    · rw [if_neg hc, if_neg]
      · rfl
      · intro hcl
        apply hc
        simp only [Bool.and_eq_true, beq_iff_eq, decide_eq_true_eq] at hcl
        obtain ⟨⟨⟨⟨⟨⟨⟨⟨⟨⟨hc1, hc2⟩, hd1⟩, hd2⟩, hd3⟩, hd4⟩, hd5⟩, hd6⟩, hv1⟩, hv2⟩, hv3⟩ := hcl
        exact ⟨hc1, hc2, (hourClassOk_iff a b).mpr ⟨hd1, hd2, hv1⟩,
          (sexaClassOk_iff d e).mpr ⟨hd3, hd4, hv2⟩, (sexaClassOk_iff g h2).mpr ⟨hd5, hd6, hv3⟩⟩
  · rfl

/-- Claim C4 (amended): `normalizeTime(t)` succeeds exactly when the trim of
`t` has the form `HH:MM` or `HH:MM:SS` with the hour value at most 23 and
the minute and second values at most 59, returning the `HH:MM` part (the
first five trimmed characters); in particular `"9:05:30"` fails and
`"09:05:30"` returns `"09:05"`. -/
theorem normalizeTime_spec :
    (∀ t : String, normalizeTime t =
      if claimTimeForm (jsTrim t.data) = true then
        some (String.mk ((jsTrim t.data).take 5))
      else none) ∧
    normalizeTime "9:05:30" = none ∧ normalizeTime "09:05:30" = some "09:05" := by
  refine ⟨fun t => ?_, by decide, by decide⟩
  simp only [normalizeTime]
  exact timeRegexMatch_eq_claim (jsTrim t.data)

theorem length_dropWhile_le (p : Char → Bool) (l : List Char) :
    (l.dropWhile p).length ≤ l.length := by
  induction l with
  | nil => simp [List.dropWhile]
  | cons c rest ih =>
    simp only [List.dropWhile]
    split
    · exact Nat.le_succ_of_le ih
    · simp

theorem dropWhile_head_false (p : Char → Bool) :
    ∀ (l : List Char) (x : Char) (xs : List Char), l.dropWhile p = x :: xs → p x = false := by
  intro l
  induction l with
  | nil => intro x xs h; simp [List.dropWhile] at h
  | cons a l' ih =>
    intro x xs h
    by_cases hp : p a
    · rw [List.dropWhile_cons, if_pos hp] at h
      exact ih x xs h
    · rw [List.dropWhile_cons, if_neg hp] at h
      injection h with h1 h2
      subst h1
      simpa using hp

theorem dropWhile_eq_self_of_all (p : Char → Bool) (A : List Char)
    (h : ∀ c ∈ A, p c = false) : A.dropWhile p = A := by
  cases A with
  | nil => rfl
  | cons a A' => simp [List.dropWhile_cons, h a (by simp)]

theorem repRuns_true_eq (l : List Char) :
    replaceNonAlnumRuns true l =
      replaceNonAlnumRuns false (l.dropWhile (fun c => !isSlugAlnum c)) := by
  induction l with
  | nil => rfl
  | cons c rest ih =>
    by_cases hc : isSlugAlnum c
    · simp [replaceNonAlnumRuns, List.dropWhile_cons, hc]
    · have hc' : isSlugAlnum c = false := by simpa using hc
      simp [replaceNonAlnumRuns, List.dropWhile_cons, hc', ih]

theorem repRuns_alnum_prefix (rest : List Char) :
    ∀ A : List Char, (∀ c ∈ A, isSlugAlnum c = true) →
      replaceNonAlnumRuns false (A ++ rest) = A ++ replaceNonAlnumRuns false rest := by
  intro A
  induction A with
  | nil => intro _; rfl
  | cons a A' ih =>
    intro h
    have ha : isSlugAlnum a = true := h a (by simp)
    simp [replaceNonAlnumRuns, ha, ih (fun c hc => h c (by simp [hc]))]

theorem alnum_ne_hyphen {c : Char} (h : isSlugAlnum c = true) : (c == '-') = false := by
  cases hb : c == '-'
  · rfl
  · rw [beq_iff_eq] at hb
    subst hb
    exact absurd h (by decide)

theorem stripTrail_of_all_alnum (A : List Char) (h : ∀ c ∈ A, isSlugAlnum c = true) :
    stripTrailHyphens A = A := by
  unfold stripTrailHyphens
  rw [dropWhile_eq_self_of_all]
  · exact List.reverse_reverse A
  · intro c hc
    exact alnum_ne_hyphen (h c (List.mem_reverse.mp hc))

theorem stripTrail_append (a x : List Char) (h : stripTrailHyphens x ≠ []) :
    stripTrailHyphens (a ++ x) = a ++ stripTrailHyphens x := by
  unfold stripTrailHyphens at *
  rw [List.reverse_append, List.dropWhile_append]
  have hx : ¬ (x.reverse.dropWhile (· == '-')).isEmpty = true := by
    intro he
    apply h
    rw [List.isEmpty_iff] at he
    simp [he]
  rw [if_neg hx, List.reverse_append, List.reverse_reverse]

theorem stripTrail_alnum_hyphen (A : List Char) (h : ∀ c ∈ A, isSlugAlnum c = true) :
    stripTrailHyphens (A ++ ['-']) = A := by
  unfold stripTrailHyphens
  rw [List.reverse_append]
  simp only [List.reverse_cons, List.reverse_nil, List.nil_append, List.singleton_append,
    List.dropWhile_cons]
  simp only [beq_self_eq_true, if_true]
  rw [dropWhile_eq_self_of_all _ _ fun x hx => alnum_ne_hyphen (h x (List.mem_reverse.mp hx)),
    List.reverse_reverse]

theorem intercalate_singleton (s a : List Char) : List.intercalate s [a] = a := by
  simp [List.intercalate]

theorem intercalate_cons_cons (s a : List Char) (b : List Char) (bs : List (List Char)) :
    List.intercalate s (a :: b :: bs) = a ++ s ++ List.intercalate s (b :: bs) := by
  simp [List.intercalate, List.intersperse]

theorem intercalate_ne_nil (s : List Char) (a : List Char) (bs : List (List Char))
    (ha : a ≠ []) : List.intercalate s (a :: bs) ≠ [] := by
  cases bs with
  | nil => simpa [intercalate_singleton]
  | cons b bs' =>
    rw [intercalate_cons_cons]
    intro h
    simp [List.append_eq_nil] at h
    exact ha h.1

theorem alnumBlocks_cons_not (c : Char) (rest : List Char) (hc : isSlugAlnum c = false) :
    alnumBlocks (c :: rest) = alnumBlocks rest := by
  simp [alnumBlocks, hc]

theorem alnumBlocks_cons_alnum :
    ∀ (rest : List Char) (c : Char), isSlugAlnum c = true →
      alnumBlocks (c :: rest) =
        (c :: rest.takeWhile isSlugAlnum) :: alnumBlocks (rest.dropWhile isSlugAlnum) := by
  intro rest
  induction rest with
  | nil => intro c hc; simp [alnumBlocks, consBlock, hc]
  | cons r r' ih =>
    intro c hc
    have hstep : alnumBlocks (c :: r :: r') = consBlock c (r :: r') (alnumBlocks (r :: r')) := by
      rw [alnumBlocks, if_pos hc]
    rw [hstep]
    by_cases hr : isSlugAlnum r
    · rw [ih r hr]
      simp [consBlock, List.takeWhile_cons, List.dropWhile_cons, hr]
    · have hr' : isSlugAlnum r = false := by simpa using hr
      rw [alnumBlocks_cons_not r r' hr']
      rcases hbs : alnumBlocks r' with _ | ⟨b, bs'⟩
      · simp [consBlock, List.takeWhile_cons, List.dropWhile_cons, hr',
          alnumBlocks_cons_not r r' hr', hbs]
      · simp [consBlock, List.takeWhile_cons, List.dropWhile_cons, hr',
          alnumBlocks_cons_not r r' hr', hbs]

theorem alnumBlocks_dropWhile_not (l : List Char) :
    alnumBlocks (l.dropWhile (fun c => !isSlugAlnum c)) = alnumBlocks l := by
  induction l with
  | nil => rfl
  | cons c rest ih =>
    by_cases hc : isSlugAlnum c
    · simp [List.dropWhile_cons, hc]
    · have hc' : isSlugAlnum c = false := by simpa using hc
      rw [List.dropWhile_cons]
      simp only [hc', Bool.not_false, if_true]
      rw [ih, alnumBlocks_cons_not c rest hc']

theorem alnumBlocks_sound :
    ∀ (n : Nat) (l : List Char), l.length ≤ n → ∀ b ∈ alnumBlocks l,
      b ≠ [] ∧ ∀ c ∈ b, isSlugAlnum c = true := by
  intro n
  induction n with
  | zero =>
    intro l hl b hb
    have : l = [] := List.eq_nil_of_length_eq_zero (Nat.le_zero.mp hl)
    subst this
    simp [alnumBlocks] at hb
  | succ k ih =>
    intro l hl b hb
    cases l with
    | nil => simp [alnumBlocks] at hb
    | cons c rest =>
      simp only [List.length_cons] at hl
      by_cases hc : isSlugAlnum c
      · rw [alnumBlocks_cons_alnum rest c hc] at hb
        rcases List.mem_cons.mp hb with rfl | hb'
        · refine ⟨by simp, ?_⟩
          intro x hx
          rcases List.mem_cons.mp hx with rfl | hx'
          · exact hc
          · exact List.mem_takeWhile_imp hx'
        · exact ih (rest.dropWhile isSlugAlnum)
            (le_trans (length_dropWhile_le isSlugAlnum rest) (by omega)) b hb'
      · have hc' : isSlugAlnum c = false := by simpa using hc
        rw [alnumBlocks_cons_not c rest hc'] at hb
        exact ih rest (by omega) b hb

theorem stripTrail_repRuns :
    ∀ (n : Nat) (l : List Char), l.length ≤ n →
      (l = [] ∨ ∃ c rest, l = c :: rest ∧ isSlugAlnum c = true) →
      stripTrailHyphens (replaceNonAlnumRuns false l) =
        List.intercalate ['-'] (alnumBlocks l) := by
  intro n
  induction n with
  | zero =>
    intro l hl _
    have : l = [] := List.eq_nil_of_length_eq_zero (Nat.le_zero.mp hl)
    subst this
    rfl
  | succ k ih =>
    intro l hl hshape
    rcases hshape with rfl | ⟨c, rest, rfl, hc⟩
    · rfl
    · simp only [List.length_cons] at hl
      have hAall : ∀ x ∈ c :: rest.takeWhile isSlugAlnum, isSlugAlnum x = true := by
        intro x hx
        rcases List.mem_cons.mp hx with rfl | hx'
        · exact hc
        · exact List.mem_takeWhile_imp hx'
      have hsplit : c :: rest =
          (c :: rest.takeWhile isSlugAlnum) ++ rest.dropWhile isSlugAlnum := by
        simp [List.takeWhile_append_dropWhile]
      have hrep : replaceNonAlnumRuns false (c :: rest) =
          (c :: rest.takeWhile isSlugAlnum) ++
            replaceNonAlnumRuns false (rest.dropWhile isSlugAlnum) := by
        conv_lhs => rw [hsplit]
        exact repRuns_alnum_prefix _ _ hAall
      have hblocks := alnumBlocks_cons_alnum rest c hc
      cases hDc : rest.dropWhile isSlugAlnum with
      | nil =>
        rw [hrep, hDc, hblocks, hDc]
        simp only [replaceNonAlnumRuns, List.append_nil, alnumBlocks]
        rw [stripTrail_of_all_alnum _ hAall, intercalate_singleton]
      | cons d rest2 =>
        have hd : isSlugAlnum d = false := dropWhile_head_false isSlugAlnum rest d rest2 hDc
        have hrepD : replaceNonAlnumRuns false (d :: rest2) =
            '-' :: replaceNonAlnumRuns false (rest2.dropWhile (fun c => !isSlugAlnum c)) := by
          simp [replaceNonAlnumRuns, hd, repRuns_true_eq]
        have hblD : alnumBlocks (d :: rest2) =
            alnumBlocks (rest2.dropWhile (fun c => !isSlugAlnum c)) := by
          rw [alnumBlocks_cons_not d rest2 hd, alnumBlocks_dropWhile_not]
        have hlenD : rest2.length + 1 ≤ rest.length := by
          have h2 := length_dropWhile_le isSlugAlnum rest
          rw [hDc] at h2
          simpa using h2
        cases hE : rest2.dropWhile (fun c => !isSlugAlnum c) with
        | nil =>
          rw [hrep, hDc, hrepD, hE, hblocks, hDc, hblD, hE]
          simp only [replaceNonAlnumRuns, alnumBlocks]
          rw [intercalate_singleton]
          exact stripTrail_alnum_hyphen _ hAall
        | cons e rest3 =>
          have he : isSlugAlnum e = true := by
            have h3 := dropWhile_head_false (fun c => !isSlugAlnum c) rest2 e rest3 hE
            simpa using h3
          have hlenE : (rest2.dropWhile (fun c => !isSlugAlnum c)).length ≤ k := by
            have h1 := length_dropWhile_le (fun c => !isSlugAlnum c) rest2
            omega
          have hS := ih (rest2.dropWhile (fun c => !isSlugAlnum c)) hlenE
            (Or.inr ⟨e, rest3, hE, he⟩)
          have hbE : alnumBlocks (rest2.dropWhile (fun c => !isSlugAlnum c)) =
              (e :: rest3.takeWhile isSlugAlnum) ::
                alnumBlocks (rest3.dropWhile isSlugAlnum) := by
            rw [hE]
            exact alnumBlocks_cons_alnum rest3 e he
          have hne : stripTrailHyphens
              (replaceNonAlnumRuns false (rest2.dropWhile (fun c => !isSlugAlnum c))) ≠ [] := by
            rw [hS, hbE]
            exact intercalate_ne_nil _ _ _ (by simp)
          rw [hrep, hDc, hrepD]
          have hassoc : (c :: rest.takeWhile isSlugAlnum) ++
              '-' :: replaceNonAlnumRuns false (rest2.dropWhile (fun c => !isSlugAlnum c)) =
              ((c :: rest.takeWhile isSlugAlnum) ++ ['-']) ++
                replaceNonAlnumRuns false (rest2.dropWhile (fun c => !isSlugAlnum c)) := by
            simp
          rw [hassoc, stripTrail_append _ _ hne, hS, hblocks, hDc, hblD, hbE,
            intercalate_cons_cons]

theorem stripEdge_repRuns (l : List Char) :
    stripEdgeHyphens (replaceNonAlnumRuns false l) =
      List.intercalate ['-'] (alnumBlocks l) := by
  have hedge : ∀ x : List Char, stripEdgeHyphens x = stripTrailHyphens (x.dropWhile (· == '-')) :=
    fun x => rfl
  cases l with
  | nil => rfl
  | cons c rest =>
    by_cases hc : isSlugAlnum c
    · have h1 : replaceNonAlnumRuns false (c :: rest) = c :: replaceNonAlnumRuns false rest := by
        simp [replaceNonAlnumRuns, hc]
      rw [hedge, h1, List.dropWhile_cons, if_neg (by simp [alnum_ne_hyphen hc])]
      rw [← h1]
      exact stripTrail_repRuns (c :: rest).length _ le_rfl (Or.inr ⟨c, rest, rfl, hc⟩)
    · have hc' : isSlugAlnum c = false := by simpa using hc
      have h1 : replaceNonAlnumRuns false (c :: rest) =
          '-' :: replaceNonAlnumRuns false (rest.dropWhile (fun x => !isSlugAlnum x)) := by
        simp [replaceNonAlnumRuns, hc', repRuns_true_eq]
      rw [hedge, h1, List.dropWhile_cons, if_pos (by simp)]
      have hblocks : alnumBlocks (c :: rest) =
          alnumBlocks (rest.dropWhile (fun x => !isSlugAlnum x)) := by
        rw [alnumBlocks_cons_not c rest hc', alnumBlocks_dropWhile_not]
      rw [hblocks]
      cases hE : rest.dropWhile (fun x => !isSlugAlnum x) with
      | nil => rfl
      | cons e rest3 =>
        have he : isSlugAlnum e = true := by
          have h3 := dropWhile_head_false (fun x => !isSlugAlnum x) rest e rest3 hE
          simpa using h3
        have h2 : replaceNonAlnumRuns false (e :: rest3) =
            e :: replaceNonAlnumRuns false rest3 := by
          simp [replaceNonAlnumRuns, he]
        rw [h2, List.dropWhile_cons, if_neg (by simp [alnum_ne_hyphen he]), ← h2]
        exact stripTrail_repRuns (e :: rest3).length _ le_rfl (Or.inr ⟨e, rest3, rfl, he⟩)


/-- Claim C5: `generateSlug(t)` equals the result of lowercasing `t`,
trimming it, and joining the maximal alphanumeric runs with single hyphens
(equivalently: replacing every maximal run of non-alphanumeric characters
with a single hyphen and stripping leading and trailing hyphens). -/
theorem generateSlug_eq_spec (t : String) : generateSlug t = slugSpec t :=
  congrArg String.mk (stripEdge_repRuns _)

theorem char_ne_hyphen_of_alnum {c : Char} (h : isSlugAlnum c = true) : c ≠ '-' := by
  intro hEq
  subst hEq
  exact absurd h (by decide)

theorem noDoubleHyphen_cons_of_ne (x : Char) (t : List Char) (hx : x ≠ '-') :
    noDoubleHyphen (x :: t) = noDoubleHyphen t := by
  rcases t with _ | ⟨y, r⟩
  · simp [noDoubleHyphen]
  · simp [noDoubleHyphen, hx]

theorem noDoubleHyphen_hyphen_cons (y : Char) (r : List Char) (hy : y ≠ '-') :
    noDoubleHyphen ('-' :: y :: r) = noDoubleHyphen (y :: r) := by
  simp [noDoubleHyphen, hy]

theorem noDoubleHyphen_alnum_append (l : List Char) :
    ∀ b : List Char, (∀ c ∈ b, isSlugAlnum c = true) →
      noDoubleHyphen (b ++ l) = noDoubleHyphen l := by
  intro b
  induction b with
  | nil => intro _; rfl
  | cons x b' ih =>
    intro h
    have hx : x ≠ '-' := char_ne_hyphen_of_alnum (h x (by simp))
    rw [List.cons_append, noDoubleHyphen_cons_of_ne x _ hx,
      ih (fun c hc => h c (by simp [hc]))]

theorem intercalate_cons_shape (s : List Char) (z : Char) (b2' : List Char)
    (bs' : List (List Char)) :
    ∃ X', List.intercalate s ((z :: b2') :: bs') = z :: X' := by
  cases bs' with
  | nil => exact ⟨b2', by rw [intercalate_singleton]⟩
  | cons b3 bs'' =>
    refine ⟨b2' ++ s ++ List.intercalate s (b3 :: bs''), ?_⟩
    rw [intercalate_cons_cons]
    simp

theorem intercalate_good :
    ∀ bs : List (List Char), (∀ b ∈ bs, b ≠ [] ∧ ∀ c ∈ b, isSlugAlnum c = true) →
      (List.intercalate ['-'] bs).all (fun c => isSlugAlnum c || c == '-') = true ∧
      (List.intercalate ['-'] bs).head? ≠ some '-' ∧
      (List.intercalate ['-'] bs).getLast? ≠ some '-' ∧
      noDoubleHyphen (List.intercalate ['-'] bs) = true := by
  intro bs
  induction bs with
  | nil =>
    intro _
    have h0 : List.intercalate ['-'] ([] : List (List Char)) = [] := rfl
    rw [h0]
    exact ⟨rfl, by simp, by simp, rfl⟩
  | cons b bs' ih =>
    intro h
    have hb := h b (by simp)
    obtain ⟨z, b2', rfl⟩ := List.exists_cons_of_ne_nil hb.1
    have hz : isSlugAlnum z = true := hb.2 z (by simp)
    cases bs' with
    | nil =>
      rw [intercalate_singleton]
      refine ⟨?_, ?_, ?_, ?_⟩
      · rw [List.all_eq_true]
        intro c hc
        simp [hb.2 c hc]
      · simp only [List.head?_cons, ne_eq, Option.some.injEq]
        exact char_ne_hyphen_of_alnum hz
      · cases hgl : (z :: b2').getLast? with
        | none => simp
        | some y =>
          have hy := List.mem_of_mem_getLast? (Option.mem_def.mpr hgl)
          simp only [ne_eq, Option.some.injEq]
          exact char_ne_hyphen_of_alnum (hb.2 y hy)
      · have hnd := noDoubleHyphen_alnum_append [] (z :: b2') hb.2
        rw [List.append_nil] at hnd
        rw [hnd]
        rfl
    | cons b2 bs'' =>
      have htail : ∀ b' ∈ b2 :: bs'', b' ≠ [] ∧ ∀ c ∈ b', isSlugAlnum c = true :=
        fun b' hb' => h b' (by simp [hb'])
      have ihx := ih htail
      have hb2 := htail b2 (by simp)
      obtain ⟨z2, b2t, rfl⟩ := List.exists_cons_of_ne_nil hb2.1
      obtain ⟨X', hX'⟩ := intercalate_cons_shape ['-'] z2 b2t bs''
      rw [intercalate_cons_cons]
      refine ⟨?_, ?_, ?_, ?_⟩
      · rw [List.all_eq_true]
        intro c hc
        simp only [List.append_assoc, List.mem_append, List.mem_singleton] at hc
        rcases hc with hc | hc | hc
        · simp [hb.2 c hc]
        · simp [hc]
        · exact (List.all_eq_true.mp ihx.1) c hc
      · simp only [List.cons_append, List.head?_cons, ne_eq, Option.some.injEq]
        exact char_ne_hyphen_of_alnum hz
      · rw [List.append_assoc, List.getLast?_append, List.getLast?_append]
        cases hXl : (List.intercalate ['-'] ((z2 :: b2t) :: bs'')).getLast? with
        | none =>
          rw [hX'] at hXl
          simp [List.getLast?] at hXl
        | some y =>
          have hy : some y ≠ some '-' := by
            rw [← hXl]
            exact ihx.2.2.1
          simp only [hXl, Option.or_some]
          exact hy
      · rw [List.append_assoc, noDoubleHyphen_alnum_append _ _ hb.2, List.singleton_append,
          hX', noDoubleHyphen_hyphen_cons _ _
            (char_ne_hyphen_of_alnum (hb2.2 z2 (by simp))), ← hX']
        exact ihx.2.2.2

/-- Claim C6: for every title `t`, `generateSlug(t)` contains only lowercase
alphanumeric characters and hyphens, does not start or end with a hyphen,
and contains no two consecutive hyphens. -/
theorem generateSlug_shape (t : String) :
    ((generateSlug t).data.all (fun c => isSlugAlnum c || c == '-')) = true ∧
    (generateSlug t).data.head? ≠ some '-' ∧
    (generateSlug t).data.getLast? ≠ some '-' ∧
    noDoubleHyphen ((generateSlug t).data) = true := by
  have hda : (generateSlug t).data =
      List.intercalate ['-'] (alnumBlocks (jsTrim (t.data.map toLowerAscii))) :=
    stripEdge_repRuns _
  rw [hda]
  exact intercalate_good _ (fun b hb =>
    alnumBlocks_sound (jsTrim (t.data.map toLowerAscii)).length _ le_rfl b hb)


theorem matchItems_nil_iff (l : List Char) : matchItems [] l = true ↔ l = [] := by
  cases l <;> simp [matchItems]

theorem matchItems_lit_iff (c : Char) (ps : List RegexItem) (l : List Char) :
    matchItems (.lit c :: ps) l = true ↔ ∃ xs, l = c :: xs ∧ matchItems ps xs = true := by
  cases l with
  | nil => simp [matchItems]
  | cons x xs =>
    simp only [matchItems, Bool.and_eq_true, beq_iff_eq]
    constructor
    · rintro ⟨rfl, h⟩
      exact ⟨xs, rfl, h⟩
    · rintro ⟨ys, heq, h⟩
      injection heq with h1 h2
      subst h1
      subst h2
      exact ⟨rfl, h⟩

theorem matchItems_plus_iff :
    ∀ (n : Nat) (l : List Char), l.length ≤ n → ∀ (p : Char → Bool) (ps : List RegexItem),
      (matchItems (.plus p :: ps) l = true ↔
        ∃ a b, l = a ++ b ∧ a ≠ [] ∧ (∀ c ∈ a, p c = true) ∧ matchItems ps b = true) := by
  intro n
  induction n with
  | zero =>
    intro l hl p ps
    have hnil : l = [] := List.eq_nil_of_length_eq_zero (Nat.le_zero.mp hl)
    subst hnil
    constructor
    · intro h
      exact absurd h (by simp [matchItems])
    · rintro ⟨a, b, heq, ha, -, -⟩
      exact absurd (List.append_eq_nil.mp heq.symm).1 ha
  | succ k ih =>
    intro l hl p ps
    cases l with
    | nil =>
      constructor
      · intro h
        exact absurd h (by simp [matchItems])
      · rintro ⟨a, b, heq, ha, -, -⟩
        exact absurd (List.append_eq_nil.mp heq.symm).1 ha
    | cons x xs =>
      simp only [List.length_cons] at hl
      simp only [matchItems, Bool.and_eq_true, Bool.or_eq_true]
      constructor
      · rintro ⟨hpx, h | h⟩
        · exact ⟨[x], xs, rfl, by simp, by intro c hc; simp at hc; subst hc; exact hpx, h⟩
        · obtain ⟨a, b, heq, ha, hall, hb⟩ := (ih xs (by omega) p ps).mp h
          refine ⟨x :: a, b, by rw [heq, List.cons_append], by simp, ?_, hb⟩
          intro c hc
          rcases List.mem_cons.mp hc with rfl | hc'
          · exact hpx
          · exact hall c hc'
      · rintro ⟨a, b, heq, ha, hall, hb⟩
        obtain ⟨a0, a', rfl⟩ := List.exists_cons_of_ne_nil ha
        rw [List.cons_append] at heq
        injection heq with h1 h2
        subst h1
        refine ⟨hall x (by simp), ?_⟩
        cases a' with
        | nil =>
          left
          simp only [List.nil_append] at h2
          rw [h2]
          exact hb
        | cons a1 a'' =>
          right
          exact (ih xs (by omega) p ps).mpr
            ⟨a1 :: a'', b, h2, by simp, fun c hc => hall c (by simp [hc]), hb⟩

/-- Claim C3 (amended): `EMAIL_REGEX` accepts `v` exactly when `v`
decomposes as `local @ domain . rest` with all three segments non-empty and
made of non-whitespace non-`@` characters — the final segment, too,
excludes `@` (the regex class is `[^\s@]`, not merely non-space).  No
normalization is applied to the value before the test. -/
theorem emailRegexTest_iff (s : String) :
    emailRegexTest s = true ↔ ∃ A B C : List Char,
      s.data = A ++ '@' :: (B ++ '.' :: C) ∧ A ≠ [] ∧ B ≠ [] ∧ C ≠ [] ∧
      (∀ c ∈ A, emailSegChar c = true) ∧ (∀ c ∈ B, emailSegChar c = true) ∧
      (∀ c ∈ C, emailSegChar c = true) := by
  unfold emailRegexTest EMAIL_REGEX_items
  rw [matchItems_plus_iff s.data.length s.data le_rfl]
  constructor
  · rintro ⟨A, r1, heq, hA, hallA, h1⟩
    rw [matchItems_lit_iff] at h1
    obtain ⟨r2, rfl, h2⟩ := h1
    rw [matchItems_plus_iff r2.length r2 le_rfl] at h2
    obtain ⟨B, r3, rfl, hB, hallB, h3⟩ := h2
    rw [matchItems_lit_iff] at h3
    obtain ⟨r4, rfl, h4⟩ := h3
    rw [matchItems_plus_iff r4.length r4 le_rfl] at h4
    obtain ⟨C, r5, rfl, hC, hallC, h5⟩ := h4
    rw [matchItems_nil_iff] at h5
    subst h5
    refine ⟨A, B, C, ?_, hA, hB, hC, hallA, hallB, hallC⟩
    rw [heq]
    simp
  · rintro ⟨A, B, C, heq, hA, hB, hC, hallA, hallB, hallC⟩
    refine ⟨A, '@' :: (B ++ '.' :: C), heq, hA, hallA, ?_⟩
    rw [matchItems_lit_iff]
    refine ⟨B ++ '.' :: C, rfl, ?_⟩
    rw [matchItems_plus_iff (B ++ '.' :: C).length _ le_rfl]
    refine ⟨B, '.' :: C, rfl, hB, hallB, ?_⟩
    rw [matchItems_lit_iff]
    refine ⟨C, rfl, ?_⟩
    rw [matchItems_plus_iff C.length _ le_rfl]
    refine ⟨C, [], by simp, hC, hallC, ?_⟩
    rw [matchItems_nil_iff]



theorem digitChar_ne_T (k : Nat) : (digitChar k == 'T') = false := by
  unfold digitChar
  have h : k % 10 < 10 := Nat.mod_lt _ (by norm_num)
  set m := k % 10 with hm
  interval_cases m <;> decide

theorem isoDateOf_ne_T (y : Int) (mo dy : Nat) :
    ∀ c ∈ isoDateOf y mo dy, (c == 'T') = false := by
  intro c hc
  unfold isoDateOf at hc
  split at hc
  case isTrue =>
    simp only [pad4, pad2, List.mem_append, List.mem_cons, List.not_mem_nil,
      or_false] at hc
    repeat' rcases hc with hc | hc
    all_goals first | exact digitChar_ne_T _ | decide
  case isFalse =>
    split at hc <;>
    · simp only [pad6, pad2, List.mem_append, List.mem_cons, List.not_mem_nil,
        or_false] at hc
      repeat' rcases hc with hc | hc
      all_goals first | exact digitChar_ne_T _ | decide

theorem isoDateChars_ne_T (z : Int) : ∀ c ∈ isoDateChars z, (c == 'T') = false := by
  intro c hc
  exact isoDateOf_ne_T _ _ _ c hc

theorem takeWhile_before_T (b : List Char) :
    ∀ a : List Char, (∀ c ∈ a, (c == 'T') = false) →
      (a ++ 'T' :: b).takeWhile (fun c => !(c == 'T')) = a := by
  intro a
  induction a with
  | nil =>
    intro _
    simp [List.takeWhile_cons]
  | cons x a' ih =>
    intro h
    rw [List.cons_append, List.takeWhile_cons, if_pos (by simp [h x (by simp)]),
      ih (fun c hc => h c (by simp [hc]))]

theorem takeWhile_iso_date (inst : Int) :
    (jsToISOStringChars inst).takeWhile (fun c => !(c == 'T')) =
      isoDateChars (inst / 86400000) := by
  unfold jsToISOStringChars
  exact takeWhile_before_T _ _ (isoDateChars_ne_T _)

/-- Claim C1 (amended): `normalizeDate(s)` fails exactly when `s` is not
parseable (within the modelled interchange format); otherwise it returns the
`YYYY-MM-DD` of the UTC calendar day of the instant denoted by `s`.  The
time of day is discarded, but a zone offset (or the local-time reading of an
offset-free date-time) shifts the returned day whenever the denoted instant
falls on a different UTC calendar day than the one written in `s`. -/
theorem normalizeDate_eq_utc_day (tz : Int) (s : String) :
    normalizeDate tz s = (jsDateParse tz s.data).map
      (fun inst => String.mk (isoDateChars (inst / 86400000))) := by
  unfold normalizeDate
  cases h : jsDateParse tz s.data with
  | none => rfl
  | some inst =>
    simp only [Option.map]
    rw [takeWhile_iso_date]




theorem yearStartDay_succ (y : Nat) :
    yearStartDay (y + 1) = yearStartDay y + (if isLeapYear y then 366 else 365) := by
  unfold yearStartDay leapsBefore isLeapYear
  split
  case isTrue h =>
    simp only [Bool.or_eq_true, Bool.and_eq_true, beq_iff_eq, bne_iff_ne, ne_eq] at h
    omega
  case isFalse h =>
    simp only [Bool.or_eq_true, Bool.and_eq_true, beq_iff_eq, bne_iff_ne, ne_eq] at h
    omega

theorem yearStartDay_lt_succ (y : Nat) : yearStartDay y < yearStartDay (y + 1) := by
  rw [yearStartDay_succ]
  split <;> omega

theorem yearStartDay_strictMono : StrictMono yearStartDay :=
  strictMono_nat_of_lt_succ yearStartDay_lt_succ

theorem findYear_spec :
    ∀ (fuel c n : Nat), yearStartDay c ≤ n → n < yearStartDay (c + fuel) →
      yearStartDay (findYear n fuel c) ≤ n ∧ n < yearStartDay (findYear n fuel c + 1) := by
  intro fuel
  induction fuel with
  | zero =>
    intro c n h1 h2
    simp only [Nat.add_zero] at h2
    omega
  | succ f ih =>
    intro c n h1 h2
    by_cases hc : yearStartDay (c + 1) ≤ n
    · rw [findYear, if_pos hc]
      have hb : n < yearStartDay (c + 1 + f) := by
        have harr : c + 1 + f = c + (f + 1) := by omega
        rw [harr]
        exact h2
      exact ih (c + 1) n hc hb
    · rw [findYear, if_neg hc]
      omega

theorem yearOfDay_spec (n : Nat) (hn : n ≤ 3900000) :
    yearStartDay (yearOfDay n) ≤ n ∧ n < yearStartDay (yearOfDay n + 1) := by
  unfold yearOfDay
  apply findYear_spec
  · unfold yearStartDay leapsBefore
    omega
  · unfold yearStartDay leapsBefore
    omega

theorem monthLen_le : ∀ (leap : Bool) (m : Nat), m < 13 → monthLen leap m ≤ 31 := by
  decide

theorem monthStart_bound :
    ∀ (leap : Bool) (m : Nat), m < 13 → ∀ d : Nat, d < 32 → 1 ≤ m → 1 ≤ d →
      d ≤ monthLen leap m →
      monthStartDoy leap m + (d - 1) < (if leap then 366 else 365) := by
  decide

theorem monthFromDoy_recover :
    ∀ (leap : Bool) (m : Nat), m < 13 → ∀ d : Nat, d < 32 → 1 ≤ m → 1 ≤ d →
      d ≤ monthLen leap m →
      monthFromDoy leap (monthStartDoy leap m + (d - 1)) = m := by
  decide

theorem isLeapYear_add_400 (y : Nat) : isLeapYear (y + 400) = isLeapYear y := by
  unfold isLeapYear
  have h4 : (y + 400) % 4 = y % 4 := by omega
  have h100 : (y + 400) % 100 = y % 100 := by omega
  have h400 : (y + 400) % 400 = y % 400 := by omega
  rw [h4, h100, h400]

theorem dateToDayIdx_add_400 (y m d : Nat) :
    dateToDayIdx (y + 400) m d = dateToDayIdx y m d + 146097 := by
  unfold dateToDayIdx yearStartDay leapsBefore
  rw [isLeapYear_add_400]
  omega

theorem dateToDayIdx_lt (y m d : Nat) (hm1 : 1 ≤ m) (hm2 : m ≤ 12) (hd1 : 1 ≤ d)
    (hd2 : d ≤ monthLen (isLeapYear y) m) :
    dateToDayIdx y m d < yearStartDay (y + 1) := by
  have hb := monthStart_bound (isLeapYear y) m (by omega) d
    (by have := monthLen_le (isLeapYear y) m (by omega); omega) hm1 hd1 hd2
  rw [yearStartDay_succ]
  unfold dateToDayIdx
  split at hb <;> split <;> omega

theorem civilFromDayIdx_dateToDayIdx (y m d : Nat) (hy : y ≤ 10500) (hm1 : 1 ≤ m)
    (hm2 : m ≤ 12) (hd1 : 1 ≤ d) (hd2 : d ≤ monthLen (isLeapYear y) m) :
    civilFromDayIdx (dateToDayIdx y m d) = (y, m, d) := by
  have hlow : yearStartDay y ≤ dateToDayIdx y m d := by
    unfold dateToDayIdx
    omega
  have hhigh : dateToDayIdx y m d < yearStartDay (y + 1) :=
    dateToDayIdx_lt y m d hm1 hm2 hd1 hd2
  have hmono : yearStartDay (y + 1) ≤ yearStartDay 10501 :=
    yearStartDay_strictMono.monotone (by omega)
  have hcap : yearStartDay 10501 ≤ 3900000 := by decide
  have hspec := yearOfDay_spec (dateToDayIdx y m d) (by omega)
  have hyy : yearOfDay (dateToDayIdx y m d) = y := by
    by_contra hne
    rcases Nat.lt_or_ge (yearOfDay (dateToDayIdx y m d)) y with hlt | hge
    · have hle : yearStartDay (yearOfDay (dateToDayIdx y m d) + 1) ≤ yearStartDay y :=
        yearStartDay_strictMono.monotone (by omega)
      omega
    · have hgt : y < yearOfDay (dateToDayIdx y m d) := by omega
      have hle : yearStartDay (y + 1) ≤ yearStartDay (yearOfDay (dateToDayIdx y m d)) :=
        yearStartDay_strictMono.monotone (by omega)
      omega
  unfold civilFromDayIdx
  rw [hyy]
  have hdoy : dateToDayIdx y m d - yearStartDay y =
      monthStartDoy (isLeapYear y) m + (d - 1) := by
    unfold dateToDayIdx
    omega
  rw [hdoy]
  have hd32 : d < 32 := by
    have := monthLen_le (isLeapYear y) m (by omega)
    omega
  rw [monthFromDoy_recover (isLeapYear y) m (by omega) d hd32 hm1 hd1 hd2]
  have hback : monthStartDoy (isLeapYear y) m + (d - 1) -
      monthStartDoy (isLeapYear y) m + 1 = d := by
    omega
  rw [hback]

theorem digitVal_lt {c : Char} (h : isDigitCh c = true) : digitVal c ≤ 9 := by
  unfold isDigitCh at h
  unfold digitVal
  simp only [Bool.and_eq_true, decide_eq_true_eq] at h
  omega

theorem digitChar_digitVal {c : Char} (h : isDigitCh c = true) :
    digitChar (digitVal c) = c := by
  unfold isDigitCh at h
  simp only [Bool.and_eq_true, decide_eq_true_eq] at h
  unfold digitChar digitVal
  have h1 : (c.toNat - 48) % 10 = c.toNat - 48 := by omega
  rw [h1]
  have h2 : 48 + (c.toNat - 48) = c.toNat := by omega
  rw [h2, Char.ofNat_toNat]

theorem pad2_digits (c1 c2 : Char) (h1 : isDigitCh c1 = true) (h2 : isDigitCh c2 = true) :
    pad2 (10 * digitVal c1 + digitVal c2) = [c1, c2] := by
  have hv1 := digitVal_lt h1
  have hv2 := digitVal_lt h2
  unfold pad2
  have e1 : (10 * digitVal c1 + digitVal c2) / 10 = digitVal c1 := by omega
  have e2 : digitChar (10 * digitVal c1 + digitVal c2) = digitChar (digitVal c2) := by
    unfold digitChar
    have hmod : (10 * digitVal c1 + digitVal c2) % 10 = digitVal c2 % 10 := by omega
    rw [hmod]
  rw [e1, e2, digitChar_digitVal h1, digitChar_digitVal h2]

theorem pad4_digits (c1 c2 c3 c4 : Char) (h1 : isDigitCh c1 = true)
    (h2 : isDigitCh c2 = true) (h3 : isDigitCh c3 = true) (h4 : isDigitCh c4 = true) :
    pad4 (1000 * digitVal c1 + 100 * digitVal c2 + 10 * digitVal c3 + digitVal c4) =
      [c1, c2, c3, c4] := by
  have hv1 := digitVal_lt h1
  have hv2 := digitVal_lt h2
  have hv3 := digitVal_lt h3
  have hv4 := digitVal_lt h4
  unfold pad4
  have e1 : (1000 * digitVal c1 + 100 * digitVal c2 + 10 * digitVal c3 + digitVal c4) / 1000 =
      digitVal c1 := by omega
  have e2 : digitChar ((1000 * digitVal c1 + 100 * digitVal c2 + 10 * digitVal c3 +
      digitVal c4) / 100) = digitChar (digitVal c2) := by
    unfold digitChar
    have ed : (1000 * digitVal c1 + 100 * digitVal c2 + 10 * digitVal c3 + digitVal c4) / 100 =
        10 * digitVal c1 + digitVal c2 := by omega
    rw [ed]
    have hmod : (10 * digitVal c1 + digitVal c2) % 10 = digitVal c2 % 10 := by omega
    rw [hmod]
  have e3 : digitChar ((1000 * digitVal c1 + 100 * digitVal c2 + 10 * digitVal c3 +
      digitVal c4) / 10) = digitChar (digitVal c3) := by
    unfold digitChar
    have ed : (1000 * digitVal c1 + 100 * digitVal c2 + 10 * digitVal c3 + digitVal c4) / 10 =
        100 * digitVal c1 + 10 * digitVal c2 + digitVal c3 := by omega
    rw [ed]
    have hmod : (100 * digitVal c1 + 10 * digitVal c2 + digitVal c3) % 10 =
        digitVal c3 % 10 := by omega
    rw [hmod]
  have e4 : digitChar (1000 * digitVal c1 + 100 * digitVal c2 + 10 * digitVal c3 +
      digitVal c4) = digitChar (digitVal c4) := by
    unfold digitChar
    have hmod : (1000 * digitVal c1 + 100 * digitVal c2 + 10 * digitVal c3 + digitVal c4) % 10 =
        digitVal c4 % 10 := by omega
    rw [hmod]
  rw [e1, e2, e3, e4, digitChar_digitVal h1, digitChar_digitVal h2, digitChar_digitVal h3,
    digitChar_digitVal h4]

/-- Claim C7: `normalizeDate` is idempotent on canonical dates — for every
string in canonical `YYYY-MM-DD` shape that `normalizeDate` accepts, the
returned string is the input itself (hence normalizing an already-normalized
accepted input changes nothing). -/
theorem normalizeDate_idempotent_on_canonical (tz : Int) (s r : String)
    (hshape : isYMDShape s = true) (h : normalizeDate tz s = some r) : r = s := by
  obtain ⟨l⟩ := s
  obtain _ | ⟨y1, _ | ⟨y2, _ | ⟨y3, _ | ⟨y4, _ | ⟨c5, _ | ⟨m1, _ | ⟨m2, _ | ⟨c8, _ | ⟨d1, _ | ⟨d2, rest⟩⟩⟩⟩⟩⟩⟩⟩⟩⟩ := l
  · simp [isYMDShape] at hshape
  · simp [isYMDShape] at hshape
  · simp [isYMDShape] at hshape
  · simp [isYMDShape] at hshape
  · simp [isYMDShape] at hshape
  · simp [isYMDShape] at hshape
  · simp [isYMDShape] at hshape
  · simp [isYMDShape] at hshape
  · simp [isYMDShape] at hshape
  · simp [isYMDShape] at hshape
  cases rest with
  | cons x rest' => simp [isYMDShape] at hshape
  | nil =>
    simp only [isYMDShape, Bool.and_eq_true, beq_iff_eq] at hshape
    obtain ⟨⟨⟨⟨⟨⟨⟨⟨⟨hc5, hc8⟩, hy1⟩, hy2⟩, hy3⟩, hy4⟩, hm1d⟩, hm2d⟩, hd1d⟩, hd2d⟩ := hshape
    subst hc5
    subst hc8
    unfold normalizeDate at h
    simp only [jsDateParse] at h
    rw [if_pos ⟨hy1, hy2, hy3, hy4⟩] at h
    simp only [dateTail] at h
    rw [if_pos trivial, if_pos ⟨hm1d, hm2d⟩] at h
    by_cases hmr : 1 ≤ 10 * digitVal m1 + digitVal m2 ∧ 10 * digitVal m1 + digitVal m2 ≤ 12
    case neg =>
      rw [if_neg hmr] at h
      simp at h
    rw [if_pos hmr] at h
    simp only [monthTail] at h
    rw [if_pos trivial, if_pos ⟨hd1d, hd2d⟩] at h
    by_cases hdr : 1 ≤ 10 * digitVal d1 + digitVal d2 ∧ 10 * digitVal d1 + digitVal d2 ≤
      monthLen (isLeapYear (1000 * digitVal y1 + 100 * digitVal y2 + 10 * digitVal y3 +
        digitVal y4)) (10 * digitVal m1 + digitVal m2)
    case neg =>
      rw [if_neg hdr] at h
      simp at h
    rw [if_pos hdr] at h
    simp only [finishDate, Option.map, Option.some.injEq] at h
    subst h
    apply congrArg String.mk
    rw [takeWhile_iso_date]
    have hdiv : ((dateToDayIdx (1000 * digitVal y1 + 100 * digitVal y2 + 10 * digitVal y3 +
        digitVal y4) (10 * digitVal m1 + digitVal m2) (10 * digitVal d1 + digitVal d2) :
          Nat) : Int) * 86400000 / 86400000 =
        ((dateToDayIdx (1000 * digitVal y1 + 100 * digitVal y2 + 10 * digitVal y3 +
          digitVal y4) (10 * digitVal m1 + digitVal m2) (10 * digitVal d1 + digitVal d2) :
            Nat) : Int) :=
      Int.mul_ediv_cancel _ (by norm_num)
    rw [hdiv]
    unfold isoDateChars
    have htn : (((dateToDayIdx (1000 * digitVal y1 + 100 * digitVal y2 + 10 * digitVal y3 +
        digitVal y4) (10 * digitVal m1 + digitVal m2) (10 * digitVal d1 + digitVal d2) :
          Nat) : Int) + 146097).toNat =
        dateToDayIdx (1000 * digitVal y1 + 100 * digitVal y2 + 10 * digitVal y3 +
          digitVal y4) (10 * digitVal m1 + digitVal m2) (10 * digitVal d1 + digitVal d2) +
          146097 := by
      omega
    rw [htn, ← dateToDayIdx_add_400]
    have hy9999 : 1000 * digitVal y1 + 100 * digitVal y2 + 10 * digitVal y3 + digitVal y4 ≤
        9999 := by
      have := digitVal_lt hy1
      have := digitVal_lt hy2
      have := digitVal_lt hy3
      have := digitVal_lt hy4
      omega
    have hd31 : 10 * digitVal d1 + digitVal d2 ≤
        monthLen (isLeapYear (1000 * digitVal y1 + 100 * digitVal y2 + 10 * digitVal y3 +
          digitVal y4 + 400)) (10 * digitVal m1 + digitVal m2) := by
      rw [isLeapYear_add_400]
      exact hdr.2
    rw [civilFromDayIdx_dateToDayIdx
      (1000 * digitVal y1 + 100 * digitVal y2 + 10 * digitVal y3 + digitVal y4 + 400)
      (10 * digitVal m1 + digitVal m2) (10 * digitVal d1 + digitVal d2)
      (by omega) hmr.1 hmr.2 hdr.1 hd31]
    show isoDateOf
      (((1000 * digitVal y1 + 100 * digitVal y2 + 10 * digitVal y3 + digitVal y4 + 400 :
        Nat) : Int) - 400)
      (10 * digitVal m1 + digitVal m2) (10 * digitVal d1 + digitVal d2) = _
    have hyi : ((1000 * digitVal y1 + 100 * digitVal y2 + 10 * digitVal y3 + digitVal y4 +
        400 : Nat) : Int) - 400 =
        ((1000 * digitVal y1 + 100 * digitVal y2 + 10 * digitVal y3 + digitVal y4 :
          Nat) : Int) := by
      push_cast
      ring
    rw [hyi]
    unfold isoDateOf
    rw [if_pos ⟨by omega, by omega⟩]
    have hytn : ((1000 * digitVal y1 + 100 * digitVal y2 + 10 * digitVal y3 + digitVal y4 :
        Nat) : Int).toNat =
        1000 * digitVal y1 + 100 * digitVal y2 + 10 * digitVal y3 + digitVal y4 := by
      omega
    rw [hytn, pad4_digits y1 y2 y3 y4 hy1 hy2 hy3 hy4, pad2_digits m1 m2 hm1d hm2d,
      pad2_digits d1 d2 hd1d hd2d]
    rfl


/-- Witness for claim C7's theorem at the canonical date `2025-11-16`. -/
theorem normalizeDate_idempotent_witness :
    isYMDShape "2025-11-16" = true ∧ ("2025-11-16" : String) = "2025-11-16" :=
  ⟨by decide, normalizeDate_idempotent_on_canonical 0 "2025-11-16" "2025-11-16"
    (by decide) (by decide)⟩

end DevEvents
